import Mathlib

/-!
Verification of the custom-texture manager of citra
(src/video_core/custom_textures/custom_tex_manager.cpp) against its
natural-language specification.

The C++ code is shallowly embedded: pure helpers become Lean functions,
stateful member functions become explicit state transformers, the file
system and image collaborators become oracles passed in as arguments.
Machine integers are modelled as Nat (with explicit mod where a width
matters).  Collaborators whose code is not part of the excerpt
(Material::LoadFromDisk, Common::SplitString, FileUtil helpers) are
modelled from the spec and carry a doc comment saying so.
-/

namespace CitraVC

/-- DecodeState from custom_tex_manager.h, as described by the spec:
Unloaded -> Pending -> (Decoded | Failed). -/
inductive DecodeState where
  | Unloaded
  | Pending
  | Decoded
  | Failed
deriving DecidableEq, Repr

/-- CustomFileFormat: recognized texture container formats, plus None for
an unrecognized extension (custom_tex_manager.cpp, MakeFileFormat). -/
inductive CustomFileFormat where
  | None
  | PNG
  | DDS
  | KTX
deriving DecidableEq, Repr

/-- MapType: role of a texture inside a material. -/
inductive MapType where
  | Color
  | Normal
deriving DecidableEq, Repr

/-- MakeFileFormat (custom_tex_manager.cpp:30-39). -/
def MakeFileFormat (ext : String) : CustomFileFormat :=
  if ext = "png" then CustomFileFormat.PNG
  else if ext = "dds" then CustomFileFormat.DDS
  else if ext = "ktx" then CustomFileFormat.KTX
  else CustomFileFormat.None

/-- MakeMapType (custom_tex_manager.cpp:41-47): "norm" maps to Normal,
anything else logs an error and falls back to Color. -/
def MakeMapType (ext : String) : MapType :=
  if ext = "norm" then MapType.Normal else MapType.Color

/-- IsPow2 (custom_tex_manager.cpp:26-28): value != 0 && (value & (value - 1)) == 0. -/
def IsPow2 (value : Nat) : Bool :=
  decide (value ≠ 0) && decide (Nat.land value (value - 1) = 0)

/-- MAX_UPLOADS_PER_TICK (custom_tex_manager.cpp:24). -/
def MAX_UPLOADS_PER_TICK : Nat := 16

/-- Material (material.h is not part of the excerpt; fields from the spec,
section 3): a decode state plus the decoded byte count. -/
structure Material where
  state : DecodeState
  size : Nat
deriving DecidableEq, Repr

/-- Modelled from the spec: Material::LoadFromDisk (material.cpp is not in
the excerpt).  Per spec section 3 a decode job moves the material to
Decoded (setting size, the decoded byte count, exactly once on success) or
to Failed, and Decoded/Failed are terminal for the lifetime of the
Material.  The ok/sz arguments are the oracle for the disk and decoder
outcome. -/
def LoadFromDisk (ok : Bool) (sz : Nat) (m : Material) : Material :=
  match m.state with
  | DecodeState.Decoded => m
  | DecodeState.Failed => m
  | _ => if ok then { state := DecodeState.Decoded, size := sz }
         else { state := DecodeState.Failed, size := m.size }

/-! ## The per-frame upload drain (TickFrame, custom_tex_manager.cpp:57-80)

The queue walk is generic in the entry type: `stateOf` reads
it->material->state and `res` produces the Bool returned by it->func()
(which the C++ discards).  The function returns the remaining queue and
the log of invocations (entry, returned Bool), in order. -/

def tickGo {α : Type} (stateOf : α → DecodeState) (res : α → Bool) :
    Nat → List α → List α × List (α × Bool)
  | _, [] => ([], [])
  | n, e :: rest =>
    if MAX_UPLOADS_PER_TICK ≤ n then (e :: rest, [])
    else
      match stateOf e with
      | DecodeState.Decoded =>
        -- it->func(); num_uploads++; [[fallthrough]] into the erase
        let r := res e
        let out := tickGo stateOf res (n + 1) rest
        (out.1, (e, r) :: out.2)
      | DecodeState.Failed =>
        -- erased without invoking func
        tickGo stateOf res n rest
      | _ =>
        -- Pending/Unloaded entries stay in place, iterator advances
        let out := tickGo stateOf res n rest
        (e :: out.1, out.2)

/-- An entry of the async_uploads queue: the state of the referenced
material at tick time, and an id naming the upload closure. -/
structure UploadEntry where
  state : DecodeState
  id : Nat
deriving DecidableEq, Repr

/-- CustomTexManager::TickFrame (custom_tex_manager.cpp:57-80): a no-op
until textures_loaded; otherwise drains async_uploads under the
MAX_UPLOADS_PER_TICK budget.  `res` gives each upload closure returned
Bool (keyed by entry id). -/
def TickFrame (textures_loaded : Bool) (res : Nat → Bool) (q : List UploadEntry) :
    List UploadEntry × List (UploadEntry × Bool) :=
  if textures_loaded then tickGo (fun e => e.state) (fun e => res e.id) 0 q
  else (q, [])

/-- Number of Decoded entries in a queue segment (each consumes one unit
of the per-tick upload budget). -/
def dcount {α : Type} (stateOf : α → DecodeState) (l : List α) : Nat :=
  l.countP (fun e => decide (stateOf e = DecodeState.Decoded))

/-! ## The preload pass (PreloadTextures, custom_tex_manager.cpp:193-224) -/

/-- recommended_min_mem (custom_tex_manager.cpp:198): 2 GiB. -/
def recommended_min_mem : Nat := 2 * (1024 * 1024 * 1024)

/-- The memory budget computed at custom_tex_manager.cpp:202-203 from total
physical memory. -/
def maxMemFor (sys_mem : Nat) : Nat :=
  if sys_mem / 2 < recommended_min_mem then sys_mem / 2
  else sys_mem - recommended_min_mem

/-- Pointwise update of the material table (material_map is keyed by the
content hash, here a Nat). -/
def updateF (f : Nat → Material) (k : Nat) (v : Material) : Nat → Material :=
  fun x => if x = k then v else f x

/-- The loop submitted to the worker pool by PreloadTextures
(custom_tex_manager.cpp:205-221).  Iterates the materials in map order
(`order` is the list of hashes in iteration order); before each material
it aborts when size_sum exceeds max_mem or when stop_run is observed set
(`stop idx`, the idx-th read of the atomic); otherwise it loads the
material and accumulates its decoded size.  Returns the final material
table and the final size_sum.  ok/sz are the LoadFromDisk oracle. -/
def preloadLoop (maxMem : Nat) (ok : Nat → Bool) (sz : Nat → Nat) (stop : Nat → Bool) :
    Nat → Nat → (Nat → Material) → List Nat → (Nat → Material) × Nat
  | sizeSum, _, f, [] => (f, sizeSum)
  | sizeSum, idx, f, h :: rest =>
    if maxMem < sizeSum then (f, sizeSum)
    else if stop idx then (f, sizeSum)
    else
      let m := LoadFromDisk (ok h) (sz h) (f h)
      preloadLoop maxMem ok sz stop (sizeSum + m.size) (idx + 1) (updateF f h m) rest

/-! ## System traces (Decode, job completion, preload, tick)

The mutable state of CustomTexManager relevant to the decode pipeline,
and the operations that touch it, as explicit state transformers.  A
trace is a list of events folded over the state; this is the sequential
interleaving semantics of the manager. -/

structure SysState where
  mats : Nat → Material
  jobs : List Nat
  uploads : List (Nat × Nat)
  async_custom_loading : Bool
  textures_loaded : Bool

/-- CustomTexManager::Decode (custom_tex_manager.cpp:284-298).  `m` is the
material hash, `cid` names the upload closure, ok/sz the disk-load oracle
for the synchronous path, `ures` the Bool the upload closure returns when
invoked synchronously.  Returns the C++ return value and the new state. -/
def DecodeOp (s : SysState) (m cid : Nat) (ok : Bool) (sz : Nat) (ures : Bool) :
    Bool × SysState :=
  if s.async_custom_loading then
    let s1 :=
      if (s.mats m).state = DecodeState.Unloaded then
        { s with mats := updateF s.mats m { s.mats m with state := DecodeState.Pending },
                 jobs := s.jobs ++ [m] }
      else s
    (false, { s1 with uploads := s1.uploads ++ [(m, cid)] })
  else
    -- async loading disabled: synchronous load, upload() invoked at once
    (ures, { s with mats := updateF s.mats m (LoadFromDisk ok sz (s.mats m)) })

/-- A queued decode job (the lambda enqueued at custom_tex_manager.cpp:291)
for material m runs: it performs LoadFromDisk.  If no job for m is queued
the event is a no-op. -/
def JobRunOp (s : SysState) (m : Nat) (ok : Bool) (sz : Nat) : SysState :=
  if m ∈ s.jobs then
    { s with mats := updateF s.mats m (LoadFromDisk ok sz (s.mats m)),
             jobs := s.jobs.erase m }
  else s

/-- CustomTexManager::PreloadTextures (custom_tex_manager.cpp:193-224):
runs the preload loop over the material table, then clears
async_custom_loading (line 223). -/
def PreloadOp (s : SysState) (order : List Nat) (maxMem : Nat) (ok : Nat → Bool)
    (sz : Nat → Nat) (stop : Nat → Bool) : SysState :=
  { s with mats := (preloadLoop maxMem ok sz stop 0 0 s.mats order).1,
           async_custom_loading := false }

/-- CustomTexManager::TickFrame as a state transformer: drains the upload
queue; material states are read through the current table.  The Bool each
closure returns is discarded by the code (see claim C10), so the trace
semantics fixes it to true. -/
def TickOp (s : SysState) : SysState :=
  if s.textures_loaded then
    { s with uploads := (tickGo (fun p => (s.mats p.1).state) (fun _ => true) 0 s.uploads).1 }
  else s

inductive Event where
  | decodeCall (m cid : Nat) (ok : Bool) (sz : Nat) (ures : Bool)
  | jobRun (m : Nat) (ok : Bool) (sz : Nat)
  | preload (order : List Nat) (maxMem : Nat) (ok : Nat → Bool) (sz : Nat → Nat)
      (stop : Nat → Bool)
  | tick

def stepEv (s : SysState) : Event → SysState
  | Event.decodeCall m cid ok sz ures => (DecodeOp s m cid ok sz ures).2
  | Event.jobRun m ok sz => JobRunOp s m ok sz
  | Event.preload order maxMem ok sz stop => PreloadOp s order maxMem ok sz stop
  | Event.tick => TickOp s

def runTrace (s : SysState) (tr : List Event) : SysState :=
  tr.foldl stepEv s

/-- The state right after discovery: every material was just created
Unloaded (custom_tex_manager.cpp:114-118), no decode job queued, the
upload queue empty. -/
def initState (a b : Bool) : SysState :=
  { mats := fun _ => { state := DecodeState.Unloaded, size := 0 },
    jobs := [], uploads := [], async_custom_loading := a, textures_loaded := b }

/-- The reachability order of DecodeState: Unloaded -> Pending ->
(Decoded | Failed), with Decoded and Failed terminal. -/
def stateLe : DecodeState → DecodeState → Bool
  | DecodeState.Unloaded, _ => true
  | DecodeState.Pending, DecodeState.Unloaded => false
  | DecodeState.Pending, _ => true
  | DecodeState.Decoded, DecodeState.Decoded => true
  | DecodeState.Decoded, _ => false
  | DecodeState.Failed, DecodeState.Failed => true
  | DecodeState.Failed, _ => false

/-- Number of decode jobs the event enqueues for material m: DecodeOp
appends a job exactly when async loading is on and the material is
Unloaded (custom_tex_manager.cpp:289-292); no other operation enqueues a
per-material decode job. -/
def enqueuedBy (s : SysState) (e : Event) (m : Nat) : Nat :=
  match e with
  | Event.decodeCall m2 _ _ _ _ =>
    if s.async_custom_loading ∧ m2 = m ∧ (s.mats m2).state = DecodeState.Unloaded
    then 1 else 0
  | _ => 0

/-- Total decode jobs enqueued for material m along a trace. -/
def enqCount (m : Nat) : SysState → List Event → Nat
  | _, [] => 0
  | s, e :: tr => enqueuedBy s e m + enqCount m (stepEv s e) tr

/-! ## Filename parsing (ParseFilename, custom_tex_manager.cpp:123-167) -/

/-- Modelled from the spec (section 4.1, "split the filename on `.`"):
Common::SplitString (common/string_util.cpp is not in the excerpt) splits
on the delimiter with std::getline semantics: an empty input yields no
parts, consecutive delimiters yield empty parts, and a trailing delimiter
yields no trailing empty part.  `acc` is the piece read so far, reversed. -/
def splitGo (d : Char) : List Char → List Char → List (List Char)
  | acc, [] => [acc.reverse]
  | acc, c :: r =>
    if c == d then
      match r with
      | [] => [acc.reverse]
      | _ :: _ => acc.reverse :: splitGo d [] r
    else splitGo d (c :: acc) r

def SplitString (l : List Char) (d : Char) : List (List Char) :=
  if l.isEmpty then [] else splitGo d [] l

/- Character classes used by the std::sscanf model.  isSpaceB is the "C"
locale isspace; isDigitB/isHexDigitB the digit sets of the %u and %X
conversions. -/

def isSpaceB (c : Char) : Bool :=
  c == ' ' || c == '\t' || c == '\n' || c == '\x0b' || c == '\x0c' || c == '\r'

def isDigitB (c : Char) : Bool := '0' ≤ c && c ≤ '9'

def isHexDigitB (c : Char) : Bool :=
  isDigitB c || ('a' ≤ c && c ≤ 'f') || ('A' ≤ c && c ≤ 'F')

def hexDigitVal (c : Char) : Nat :=
  if isDigitB c then c.toNat - '0'.toNat
  else if 'a' ≤ c && c ≤ 'f' then c.toNat - 'a'.toNat + 10
  else c.toNat - 'A'.toNat + 10

/-- Value of a hexadecimal digit string (most significant first). -/
def hexValue (l : List Char) : Nat :=
  l.foldl (fun a c => a * 16 + hexDigitVal c) 0

/-- A strtoul-style optional single sign character. -/
def dropSign (l : List Char) : List Char :=
  match l with
  | c :: r => if c == '+' || c == '-' then r else l
  | [] => l

/-- True when the (whitespace-stripped) input begins with a minus sign. -/
def signNeg (l : List Char) : Bool :=
  match l with
  | c :: _ => c == '-'
  | [] => false

/-- A strtoul-style optional 0x/0X before base-16 digits: consumed only
when a hexadecimal digit follows. -/
def drop0x (l : List Char) : List Char :=
  match l with
  | a :: b :: r =>
    if a == '0' && (b == 'x' || b == 'X') && isHexDigitB (r.headD ' ') then r
    else l
  | _ => l

/-- One %u conversion of std::sscanf: skip whitespace, optional sign, then
at least one decimal digit (maximal run).  The converted value is
discarded by ParseFilename (the spec: width/height/format are validated
for shape but not retained), so only the remaining input is returned. -/
def scanU (l : List Char) : Option (List Char) :=
  let l2 := dropSign (l.dropWhile isSpaceB)
  if (l2.takeWhile isDigitB).isEmpty then none
  else some (l2.dropWhile isDigitB)

/-- One %llX conversion of std::sscanf: skip whitespace, optional sign,
optional 0x, then at least one hexadecimal digit (maximal run).  The value
is reduced mod 2^64 (unsigned long long); an out-of-range or negated input
is implementation-defined in C and modelled as wraparound - the theorems
below only use in-range values with no sign. -/
def scanLLX (l : List Char) : Option (Nat × List Char) :=
  let l1 := l.dropWhile isSpaceB
  let neg := signNeg l1
  let l3 := drop0x (dropSign l1)
  let ds := l3.takeWhile isHexDigitB
  if ds.isEmpty then none
  else
    let v := hexValue ds % 2 ^ 64
    some (if neg then (2 ^ 64 - v) % 2 ^ 64 else v, l3.dropWhile isHexDigitB)

/-- A non-whitespace literal character of the sscanf format string must
match the next input character exactly. -/
def scanLit (c : Char) (l : List Char) : Option (List Char) :=
  match l with
  | c2 :: r => if c2 == c then some r else none
  | [] => none

/-- std::sscanf(s, "tex1_%ux%u_%llX_%u", &width, &height, &hash, &format)
returning 4 (custom_tex_manager.cpp:158-159), i.e. all four conversions
succeed; yields the %llX value.  Trailing input after the fourth
conversion is not examined by sscanf. -/
def scanfTex1 (l : List Char) : Option Nat := do
  let r ← scanLit 't' l
  let r ← scanLit 'e' r
  let r ← scanLit 'x' r
  let r ← scanLit '1' r
  let r ← scanLit '_' r
  let r ← scanU r
  let r ← scanLit 'x' r
  let r ← scanU r
  let r ← scanLit '_' r
  let hr ← scanLLX r
  let r ← scanLit '_' hr.2
  let _ ← scanU r
  pure hr.1

/-- CustomTexture (custom_textures/custom_tex_manager.h via the spec data
model): the fields ParseFilename fills in. -/
structure CustomTexture where
  hash : Nat
  file_format : CustomFileFormat
  type : MapType
  path : String
deriving DecidableEq, Repr

/-- CustomTexManager::ParseFilename (custom_tex_manager.cpp:123-167).
Takes the session refuse_dds flag and the PathOverride table
(path_to_hash_map, keyed by the full virtual file name), the directory
virtualName and physicalName; returns the parsed texture or none
on rejection.  A filename with no extension separator would make the C++
call back() on an empty vector after the pops (undefined behavior); that
unreachable-in-practice case is modelled as scanning the empty string,
which fails. -/
def ParseFilename (refuse_dds : Bool) (path_to_hash_map : List (String × Nat))
    (virtualName physicalName : String) : Option CustomTexture :=
  let parts := SplitString virtualName.data '.'
  if 3 < parts.length then none
  else
    match parts.getLast? with
    | none => none
    | some extPart =>
      let file_format := MakeFileFormat (String.mk extPart)
      if file_format = CustomFileFormat.None then none
      else if file_format = CustomFileFormat.DDS ∧ refuse_dds then none
      else
        let parts := parts.dropLast
        let tp := if 1 < parts.length then
            (MakeMapType (String.mk (parts.getLastD [])), parts.dropLast)
          else (MapType.Color, parts)
        match path_to_hash_map.lookup virtualName with
        | some h =>
          some { hash := h, file_format := file_format, type := tp.1, path := physicalName }
        | none =>
          match scanfTex1 (tp.2.getLastD []) with
          | some h =>
            some { hash := h, file_format := file_format, type := tp.1, path := physicalName }
          | none => none

/-! ## The config store (ReadConfig, custom_tex_manager.cpp:300-354) -/

/-- Modelled from the spec (section 4.2, each override filename "is
inserted into the PathOverride table under its bare name"):
FileUtil::GetFilename (common/file_util.h is not in the excerpt) strips
the directory part of a path. -/
def GetFilename (s : String) : String :=
  String.mk (((s.data.reverse).takeWhile (fun c => !(c == '/' || c == '\\'))).reverse)

/-- A value of a "textures" entry in pack.json: one filename, a list of
filenames, or anything else (which the code logs and skips). -/
inductive JVal where
  | jstr (s : String)
  | jarr (l : List String)
  | jother
deriving DecidableEq, Repr

/-- The parsed shape of pack.json that ReadConfig consumes: the three
option flags and the textures table in iteration order. -/
structure PackJson where
  skip_mipmap : Bool
  flip_png_files : Bool
  use_new_hash : Bool
  textures : List (String × JVal)
deriving Repr

/-- The descriptor file as ReadConfig observes it: whether pack.json
opened, how many bytes ReadBytes returned, and (when nonzero) the parsed
JSON content. -/
structure ConfigFileInput where
  opens : Bool
  readSize : Nat
  json : PackJson
deriving Repr

/-- The manager state ReadConfig writes: the pack option flags and the
PathOverride table (path_to_hash_map). -/
structure ConfigState where
  skip_mipmap : Bool
  flip_png_files : Bool
  use_new_hash : Bool
  refuse_dds : Bool
  path_to_hash_map : List (String × Nat)
deriving DecidableEq, Repr

/-- std::stoull(key, &idx, 16): skip whitespace, optional sign, optional
0x/0X, then base-16 digits.  When no conversion can be performed it
throws std::invalid_argument (modelled as Except.error); otherwise it
returns the value (unsigned long long, mod 2^64; a clamped out-of-range
result is not modelled, the theorems use small keys) and sets idx to the
number of characters consumed, which is then at least 1. -/
def stoullHex (s : String) : Except String (Nat × Nat) :=
  let l0 := s.data
  let nws := (l0.takeWhile isSpaceB).length
  let l1 := l0.dropWhile isSpaceB
  let nsgn := match l1 with
    | c :: _ => if c == '+' || c == '-' then 1 else 0
    | [] => 0
  let neg := signNeg l1
  let l2 := dropSign l1
  let l3 := drop0x l2
  let npre := l2.length - l3.length
  let ds := l3.takeWhile isHexDigitB
  if ds.isEmpty then Except.error "invalid_argument"
  else
    let v := hexValue ds % 2 ^ 64
    Except.ok (if neg then (2 ^ 64 - v) % 2 ^ 64 else v, nws + nsgn + npre + ds.length)

/-- path_to_hash_map.try_emplace(filename) then assignment of the hash
when the key was new (custom_tex_manager.cpp:332-339): the first insertion
wins, a duplicate bare filename is logged and skipped. -/
def tryEmplace (m : List (String × Nat)) (k : String) (v : Nat) : List (String × Nat) :=
  if (m.lookup k).isSome then m else m ++ [(k, v)]

/-- The per-filename closure `parse` (custom_tex_manager.cpp:330-340). -/
def applyOverride (hash : Nat) (st : ConfigState) (file : String) : ConfigState :=
  { st with path_to_hash_map := tryEmplace st.path_to_hash_map (GetFilename file) hash }

/-- One iteration of the textures loop (custom_tex_manager.cpp:323-353).
std::stoull on a key with no hexadecimal prefix throws, which propagates
out of ReadConfig; the `if (!idx)` guard in the source is kept even though
stoull never returns with idx == 0. -/
def applyTexturesEntry (st : ConfigState) (e : String × JVal) : Except String ConfigState :=
  match stoullHex e.1 with
  | Except.error msg => Except.error msg
  | Except.ok (hash, idx) =>
    if idx = 0 then Except.ok st
    else
      match e.2 with
      | JVal.jstr f => Except.ok (applyOverride hash st f)
      | JVal.jarr fs => Except.ok (fs.foldl (applyOverride hash) st)
      | JVal.jother => Except.ok st

/-- CustomTexManager::ReadConfig (custom_tex_manager.cpp:300-354).  When
pack.json does not open, refuse_dds is set and the function returns; when
it opens but ReadBytes returns 0 the function returns with the state
unchanged; otherwise the options are read, refuse_dds is derived, and the
textures table is folded into the PathOverride table (exceptions from
stoull propagate). -/
def ReadConfig (input : ConfigFileInput) (st : ConfigState) : Except String ConfigState :=
  if !input.opens then Except.ok { st with refuse_dds := true }
  else if input.readSize = 0 then Except.ok st
  else
    let j := input.json
    let st1 := { st with skip_mipmap := j.skip_mipmap,
                         flip_png_files := j.flip_png_files,
                         use_new_hash := j.use_new_hash,
                         refuse_dds := j.skip_mipmap || !j.use_new_hash }
    j.textures.foldlM applyTexturesEntry st1

/-! ## The dump pipeline (DumpTexture, custom_tex_manager.cpp:226-273) -/

/-- The relevant fields of SurfaceParams (its header is not in the
excerpt): dimensions and the pixel format number printed into the dump
filename. -/
structure SurfaceShape where
  width : Nat
  height : Nat
  pixel_format : Nat
deriving DecidableEq, Repr

/-- The externally visible dump state: the session dumped-hash set, the
file system (paths of existing files, with directory creation as the
createOk oracle), and the queued encode jobs (dump path, data hash). -/
structure DumpState where
  dumped_textures : List Nat
  files : List String
  queued : List (String × Nat)
deriving DecidableEq, Repr

/-- Uppercase base-16 digits of n, most significant first. -/
def hexDigitsUpper : Nat → List Char → List Char
  | 0, acc => acc
  | n + 1, acc =>
    let m := n + 1
    hexDigitsUpper (m / 16) ("0123456789ABCDEF".data.getD (m % 16) '0' :: acc)
decreasing_by exact Nat.div_lt_self (Nat.succ_pos n) (by omega)

/-- fmt {:016X}: zero-padded 16-character uppercase hexadecimal. -/
def toHex16 (n : Nat) : String :=
  let ds := hexDigitsUpper n []
  String.mk (List.replicate (16 - ds.length) '0' ++ ds)

/-- The destination path built at custom_tex_manager.cpp:234-242. -/
def dumpPath (programId w h hash fmt level : Nat) : String :=
  "textures/" ++ toHex16 programId ++ "/tex1_" ++ toString w ++ "x" ++ toString h ++
    "_" ++ toHex16 hash ++ "_" ++ toString fmt ++ "_mip" ++ toString level ++ ".png"

/-- CustomTexManager::DumpTexture (custom_tex_manager.cpp:226-273) as a
transformer of the dump state.  createOk is the CreateFullPath result.
The function short-circuits on an already-dumped hash or an existing file,
rejects non-power-of-two dimensions, and otherwise queues the asynchronous
encode job and marks the hash dumped before the job runs. -/
def DumpTexture (createOk : Bool) (programId : Nat) (s : DumpState)
    (params : SurfaceShape) (level : Nat) (data_hash : Nat) : DumpState :=
  let path := dumpPath programId params.width params.height data_hash
      params.pixel_format level
  if !createOk then s
  else if data_hash ∈ s.dumped_textures ∨ path ∈ s.files then s
  else if !(IsPow2 params.width) || !(IsPow2 params.height) then s
  else { s with queued := s.queued ++ [(path, data_hash)],
                dumped_textures := s.dumped_textures ++ [data_hash] }

/-- Number of queued encode jobs for a given content hash. -/
def encCount (q : List (String × Nat)) (h : Nat) : Nat :=
  q.countP (fun e => decide (e.2 = h))

/-! ## Concrete instances used by counterexamples and witnesses -/

/-- A queue of 16 Decoded entries followed by one Failed entry. -/
def cq17 : List UploadEntry :=
  (List.range 16).map (fun i => { state := DecodeState.Decoded, id := i }) ++
    [{ state := DecodeState.Failed, id := 16 }]

/-- A queue of 100 Decoded entries. -/
def cq100 : List UploadEntry :=
  (List.range 100).map (fun i => { state := DecodeState.Decoded, id := i })

/-- A queue of one Pending, one Failed, one Decoded entry. -/
def cq3 : List UploadEntry :=
  [{ state := DecodeState.Pending, id := 0 }, { state := DecodeState.Failed, id := 1 },
   { state := DecodeState.Decoded, id := 2 }]

/-- All materials fresh (Unloaded, size 0). -/
def freshMats : Nat → Material := fun _ => { state := DecodeState.Unloaded, size := 0 }

/-- A system state right after discovery with async loading on. -/
def ds0 : SysState := initState true true

/-- A config state with refuse_dds still false (its value before
ReadConfig runs). -/
def cfg0 : ConfigState :=
  { skip_mipmap := false, flip_png_files := false, use_new_hash := true,
    refuse_dds := false, path_to_hash_map := [] }

/-- A descriptor file that opens but reads zero bytes (an empty or
unreadable pack.json). -/
def emptyCfgInput : ConfigFileInput :=
  { opens := true, readSize := 0,
    json := { skip_mipmap := false, flip_png_files := false, use_new_hash := true,
              textures := [] } }

/-- A descriptor whose textures table has a key with no hexadecimal
prefix followed by a well-formed entry. -/
def badKeyCfgInput : ConfigFileInput :=
  { opens := true, readSize := 64,
    json := { skip_mipmap := false, flip_png_files := false, use_new_hash := true,
              textures := [("zzz", JVal.jstr "a.png"), ("00AB", JVal.jstr "b.png")] } }

/-- An empty dump session state. -/
def dump0 : DumpState := { dumped_textures := [], files := [], queued := [] }

/-- A readable descriptor setting skip_mipmap, which forces refuse_dds. -/
def skipMipmapCfgInput : ConfigFileInput :=
  { opens := true, readSize := 9,
    json := { skip_mipmap := true, flip_png_files := false, use_new_hash := true,
              textures := [] } }

/-! # Theorems

## Lemmas about the TickFrame queue walk -/

theorem tickGo_full {α : Type} (stateOf : α → DecodeState) (res : α → Bool)
    (n : Nat) (hn : MAX_UPLOADS_PER_TICK ≤ n) (l : List α) :
    tickGo stateOf res n l = (l, []) := by
  cases l with
  | nil => rfl
  | cons e t => simp [tickGo, hn]

theorem tickGo_cons_decoded {α : Type} {stateOf : α → DecodeState} {res : α → Bool}
    {n : Nat} {e : α} (hn : ¬ MAX_UPLOADS_PER_TICK ≤ n)
    (hs : stateOf e = DecodeState.Decoded) (t : List α) :
    tickGo stateOf res n (e :: t) =
      ((tickGo stateOf res (n + 1) t).1, (e, res e) :: (tickGo stateOf res (n + 1) t).2) := by
  simp [tickGo, if_neg hn, hs]

theorem tickGo_cons_failed {α : Type} {stateOf : α → DecodeState} {res : α → Bool}
    {n : Nat} {e : α} (hn : ¬ MAX_UPLOADS_PER_TICK ≤ n)
    (hs : stateOf e = DecodeState.Failed) (t : List α) :
    tickGo stateOf res n (e :: t) = tickGo stateOf res n t := by
  simp [tickGo, if_neg hn, hs]

theorem tickGo_cons_pending {α : Type} {stateOf : α → DecodeState} {res : α → Bool}
    {n : Nat} {e : α} (hn : ¬ MAX_UPLOADS_PER_TICK ≤ n)
    (hs : stateOf e = DecodeState.Pending) (t : List α) :
    tickGo stateOf res n (e :: t) =
      (e :: (tickGo stateOf res n t).1, (tickGo stateOf res n t).2) := by
  simp [tickGo, if_neg hn, hs]

theorem tickGo_cons_unloaded {α : Type} {stateOf : α → DecodeState} {res : α → Bool}
    {n : Nat} {e : α} (hn : ¬ MAX_UPLOADS_PER_TICK ≤ n)
    (hs : stateOf e = DecodeState.Unloaded) (t : List α) :
    tickGo stateOf res n (e :: t) =
      (e :: (tickGo stateOf res n t).1, (tickGo stateOf res n t).2) := by
  simp [tickGo, if_neg hn, hs]

theorem tickGo_all_decoded {α : Type} (stateOf : α → DecodeState) (res : α → Bool) :
    ∀ (l : List α), (∀ e ∈ l, stateOf e = DecodeState.Decoded) → ∀ n,
      (tickGo stateOf res n l).2.length = min (MAX_UPLOADS_PER_TICK - n) l.length ∧
      (tickGo stateOf res n l).1.length = l.length - (MAX_UPLOADS_PER_TICK - n) := by
  intro l
  induction l with
  | nil => intro _ n; simp [tickGo]
  | cons e t ih =>
    intro h n
    have he : stateOf e = DecodeState.Decoded := h e (List.mem_cons_self e t)
    have ht : ∀ x ∈ t, stateOf x = DecodeState.Decoded :=
      fun x hx => h x (List.mem_cons_of_mem e hx)
    by_cases hn : MAX_UPLOADS_PER_TICK ≤ n
    · rw [tickGo_full stateOf res n hn]
      simp [MAX_UPLOADS_PER_TICK] at hn ⊢
      omega
    · have := ih ht (n + 1)
      rw [tickGo_cons_decoded hn he t]
      simp only [List.length_cons]
      simp [MAX_UPLOADS_PER_TICK] at hn this ⊢
      omega

theorem tickGo_append {α : Type} (stateOf : α → DecodeState) (res : α → Bool) :
    ∀ (l1 l2 : List α) (n : Nat), n ≤ MAX_UPLOADS_PER_TICK →
      tickGo stateOf res n (l1 ++ l2) =
        ((tickGo stateOf res n l1).1 ++
           (tickGo stateOf res (min MAX_UPLOADS_PER_TICK (n + dcount stateOf l1)) l2).1,
         (tickGo stateOf res n l1).2 ++
           (tickGo stateOf res (min MAX_UPLOADS_PER_TICK (n + dcount stateOf l1)) l2).2) := by
  intro l1
  induction l1 with
  | nil =>
    intro l2 n hn
    have : min MAX_UPLOADS_PER_TICK (n + dcount stateOf ([] : List α)) = n := by
      simp [dcount]; omega
    rw [this]
    simp [tickGo]
  | cons e t ih =>
    intro l2 n hn
    by_cases hfull : MAX_UPLOADS_PER_TICK ≤ n
    · have hn16 : n = MAX_UPLOADS_PER_TICK := Nat.le_antisymm hn hfull
      subst hn16
      rw [tickGo_full stateOf res _ (Nat.le_refl _) (e :: t),
          tickGo_full stateOf res _ (Nat.le_refl _) (e :: t ++ l2)]
      have hmin : min MAX_UPLOADS_PER_TICK (MAX_UPLOADS_PER_TICK + dcount stateOf (e :: t)) =
          MAX_UPLOADS_PER_TICK := by omega
      rw [hmin, tickGo_full stateOf res _ (Nat.le_refl _) l2]
      simp
    · have hlt : ¬ MAX_UPLOADS_PER_TICK ≤ n := hfull
      rw [List.cons_append]
      cases hs : stateOf e with
      | Decoded =>
        have hd : dcount stateOf (e :: t) = dcount stateOf t + 1 := by
          simp [dcount, List.countP_cons, hs]
        have harith : n + dcount stateOf (e :: t) = n + 1 + dcount stateOf t := by
          rw [hd]; omega
        rw [tickGo_cons_decoded hlt hs (t ++ l2), tickGo_cons_decoded hlt hs t,
            ih l2 (n + 1) (by omega), harith]
        simp
      | Failed =>
        have hd : dcount stateOf (e :: t) = dcount stateOf t := by
          simp [dcount, List.countP_cons, hs]
        rw [tickGo_cons_failed hlt hs (t ++ l2), tickGo_cons_failed hlt hs t,
            ih l2 n hn, hd]
      | Pending =>
        have hd : dcount stateOf (e :: t) = dcount stateOf t := by
          simp [dcount, List.countP_cons, hs]
        rw [tickGo_cons_pending hlt hs (t ++ l2), tickGo_cons_pending hlt hs t,
            ih l2 n hn, hd]
        simp
      | Unloaded =>
        have hd : dcount stateOf (e :: t) = dcount stateOf t := by
          simp [dcount, List.countP_cons, hs]
        rw [tickGo_cons_unloaded hlt hs (t ++ l2), tickGo_cons_unloaded hlt hs t,
            ih l2 n hn, hd]
        simp

theorem tickGo_rem_subset {α : Type} (stateOf : α → DecodeState) (res : α → Bool) :
    ∀ (l : List α) (n : Nat) (x : α), x ∈ (tickGo stateOf res n l).1 → x ∈ l := by
  intro l
  induction l with
  | nil => intro n x hx; simp [tickGo] at hx
  | cons e t ih =>
    intro n x hx
    by_cases hfull : MAX_UPLOADS_PER_TICK ≤ n
    · rw [tickGo_full stateOf res n hfull] at hx
      exact hx
    · cases hs : stateOf e with
      | Decoded =>
        rw [tickGo_cons_decoded hfull hs t] at hx
        exact List.mem_cons_of_mem e (ih (n + 1) x hx)
      | Failed =>
        rw [tickGo_cons_failed hfull hs t] at hx
        exact List.mem_cons_of_mem e (ih n x hx)
      | Pending =>
        rw [tickGo_cons_pending hfull hs t] at hx
        rcases List.mem_cons.mp hx with h | h
        · exact h ▸ List.mem_cons_self e t
        · exact List.mem_cons_of_mem e (ih n x h)
      | Unloaded =>
        rw [tickGo_cons_unloaded hfull hs t] at hx
        rcases List.mem_cons.mp hx with h | h
        · exact h ▸ List.mem_cons_self e t
        · exact List.mem_cons_of_mem e (ih n x h)

theorem tickGo_log_subset {α : Type} (stateOf : α → DecodeState) (res : α → Bool) :
    ∀ (l : List α) (n : Nat) (p : α × Bool), p ∈ (tickGo stateOf res n l).2 → p.1 ∈ l := by
  intro l
  induction l with
  | nil => intro n p hp; simp [tickGo] at hp
  | cons e t ih =>
    intro n p hp
    by_cases hfull : MAX_UPLOADS_PER_TICK ≤ n
    · rw [tickGo_full stateOf res n hfull] at hp
      simp at hp
    · cases hs : stateOf e with
      | Decoded =>
        rw [tickGo_cons_decoded hfull hs t] at hp
        rcases List.mem_cons.mp hp with h | h
        · rw [h]; exact List.mem_cons_self e t
        · exact List.mem_cons_of_mem e (ih (n + 1) p h)
      | Failed =>
        rw [tickGo_cons_failed hfull hs t] at hp
        exact List.mem_cons_of_mem e (ih n p hp)
      | Pending =>
        rw [tickGo_cons_pending hfull hs t] at hp
        exact List.mem_cons_of_mem e (ih n p hp)
      | Unloaded =>
        rw [tickGo_cons_unloaded hfull hs t] at hp
        exact List.mem_cons_of_mem e (ih n p hp)

theorem tickGo_res_irrel {α : Type} (stateOf : α → DecodeState) (res res2 : α → Bool) :
    ∀ (l : List α) (n : Nat),
      (tickGo stateOf res n l).1 = (tickGo stateOf res2 n l).1 ∧
      (tickGo stateOf res n l).2.map (fun p => p.1) =
        (tickGo stateOf res2 n l).2.map (fun p => p.1) := by
  intro l
  induction l with
  | nil => intro n; simp [tickGo]
  | cons e t ih =>
    intro n
    by_cases hfull : MAX_UPLOADS_PER_TICK ≤ n
    · rw [tickGo_full stateOf res n hfull, tickGo_full stateOf res2 n hfull]
      exact ⟨rfl, rfl⟩
    · cases hs : stateOf e with
      | Decoded =>
        rw [tickGo_cons_decoded hfull hs t, tickGo_cons_decoded hfull hs t]
        exact ⟨(ih (n + 1)).1, by simp only [List.map_cons]; rw [(ih (n + 1)).2]⟩
      | Failed =>
        rw [tickGo_cons_failed hfull hs t, tickGo_cons_failed hfull hs t]
        exact ih n
      | Pending =>
        rw [tickGo_cons_pending hfull hs t, tickGo_cons_pending hfull hs t]
        exact ⟨by rw [(ih n).1], (ih n).2⟩
      | Unloaded =>
        rw [tickGo_cons_unloaded hfull hs t, tickGo_cons_unloaded hfull hs t]
        exact ⟨by rw [(ih n).1], (ih n).2⟩

theorem TickFrame_true (res : Nat → Bool) (q : List UploadEntry) :
    TickFrame true res q = tickGo (fun e => e.state) (fun e => res e.id) 0 q := rfl

/-! ## Claim C1 -/

/-- Claim C1, counterexample to the universally quantified second half:
on a queue of 16 Decoded entries followed by one Failed entry, TickFrame
exhausts its 16-upload budget on the Decoded entries and returns before
reaching the Failed entry, which therefore stays queued instead of being
removed (custom_tex_manager.cpp:64-66 returns before the erase at line 73
can run). -/
theorem tickFrame_failed_entry_after_budget_stays :
    ({ state := DecodeState.Failed, id := 16 } : UploadEntry) ∈
      (TickFrame true (fun _ => true) cq17).1 := by decide

/-- Claim C1 (amended): after discovery, one TickFrame call on a queue of
100 entries whose materials are all Decoded invokes exactly 16 upload
closures and leaves exactly 84 entries queued; and a queued entry whose
material is Failed is removed without its upload closure being invoked
provided the scan reaches it, i.e. when fewer than 16 Decoded entries
precede it in the queue - a Failed entry beyond the exhausted 16-upload
budget stays queued until a later call (see the counterexample). -/
theorem tickFrame_budget_and_failed_amended (res : Nat → Bool) (q : List UploadEntry) :
    ((q.length = 100) → (∀ e ∈ q, e.state = DecodeState.Decoded) →
      (TickFrame true res q).2.length = 16 ∧ (TickFrame true res q).1.length = 84)
    ∧ (∀ pre (e : UploadEntry) post, q = pre ++ e :: post →
        e.state = DecodeState.Failed →
        dcount (fun x : UploadEntry => x.state) pre < MAX_UPLOADS_PER_TICK →
        e.id ∉ (pre ++ post).map (fun x => x.id) →
        e ∉ (TickFrame true res q).1 ∧
        e.id ∉ (TickFrame true res q).2.map (fun p => p.1.id)) := by
  constructor
  · intro hlen hdec
    have h := tickGo_all_decoded (fun e : UploadEntry => e.state) (fun e => res e.id)
      q hdec 0
    rw [TickFrame_true, hlen] at *
    simp [MAX_UPLOADS_PER_TICK] at h
    exact ⟨h.1, h.2⟩
  · intro pre e post hq he hcd hid
    subst hq
    have happ := tickGo_append (fun x : UploadEntry => x.state) (fun x => res x.id)
      pre (e :: post) 0 (by omega)
    have hmin : min MAX_UPLOADS_PER_TICK
        (0 + dcount (fun x : UploadEntry => x.state) pre) =
        dcount (fun x : UploadEntry => x.state) pre := by omega
    rw [hmin] at happ
    have hbud : ¬ MAX_UPLOADS_PER_TICK ≤ dcount (fun x : UploadEntry => x.state) pre := by
      omega
    rw [tickGo_cons_failed hbud he post] at happ
    rw [TickFrame_true, happ]
    constructor
    · intro hmem
      rcases List.mem_append.mp hmem with h | h
      · have hin : e ∈ pre := tickGo_rem_subset _ _ pre 0 e h
        exact hid (List.mem_map_of_mem (fun x => x.id)
          (List.mem_append.mpr (Or.inl hin)))
      · have hin : e ∈ post := tickGo_rem_subset _ _ post _ e h
        exact hid (List.mem_map_of_mem (fun x => x.id)
          (List.mem_append.mpr (Or.inr hin)))
    · intro hmem
      rcases List.mem_map.mp hmem with ⟨p, hp, hpid⟩
      rcases List.mem_append.mp hp with h | h
      · have hin : p.1 ∈ pre := tickGo_log_subset _ _ pre 0 p h
        refine hid ?_
        rw [← hpid]
        exact List.mem_map_of_mem (fun x => x.id) (List.mem_append.mpr (Or.inl hin))
      · have hin : p.1 ∈ post := tickGo_log_subset _ _ post _ p h
        refine hid ?_
        rw [← hpid]
        exact List.mem_map_of_mem (fun x => x.id) (List.mem_append.mpr (Or.inr hin))

/-- Witness for C1 (amended): the 100-Decoded-entry part on cq100, and the
Failed-entry part on cq3 = [Pending 0, Failed 1, Decoded 2], where the
Failed entry is preceded by no Decoded entry. -/
theorem tickFrame_budget_and_failed_amended_witness :
    ((TickFrame true (fun _ => true) cq100).2.length = 16 ∧
      (TickFrame true (fun _ => true) cq100).1.length = 84)
    ∧ (({ state := DecodeState.Failed, id := 1 } : UploadEntry) ∉
         (TickFrame true (fun _ => true) cq3).1 ∧
       (1 : Nat) ∉ (TickFrame true (fun _ => true) cq3).2.map (fun p => p.1.id)) :=
  ⟨(tickFrame_budget_and_failed_amended (fun _ => true) cq100).1 (by decide) (by decide),
   (tickFrame_budget_and_failed_amended (fun _ => true) cq3).2
     [{ state := DecodeState.Pending, id := 0 }]
     { state := DecodeState.Failed, id := 1 }
     [{ state := DecodeState.Decoded, id := 2 }]
     rfl rfl (by decide) (by decide)⟩

/-! ## Claim C10 -/

/-- Claim C10: whenever TickFrame invokes the upload closure of a queued entry
(the material of the entry is Decoded and the scan reaches it within the
16-upload budget), the Bool the closure returns is discarded
(custom_tex_manager.cpp:69, an expression statement) and the entry is
erased unconditionally via the fallthrough into the Failed arm: the entry
never stays queued, the remaining queue and the set of invoked entries are
the same whatever the closures return, so an upload closure returning
false is neither retried nor is its failure reported. -/
theorem tickFrame_discards_upload_result (res res2 : Nat → Bool)
    (q pre post : List UploadEntry) (e : UploadEntry)
    (hq : q = pre ++ e :: post) (he : e.state = DecodeState.Decoded)
    (hcd : dcount (fun x : UploadEntry => x.state) pre < MAX_UPLOADS_PER_TICK)
    (hid : e.id ∉ (pre ++ post).map (fun x => x.id)) :
    ((e, res e.id) ∈ (TickFrame true res q).2)
    ∧ e ∉ (TickFrame true res q).1
    ∧ (TickFrame true res q).1 = (TickFrame true res2 q).1
    ∧ (TickFrame true res q).2.map (fun p => p.1) =
        (TickFrame true res2 q).2.map (fun p => p.1) := by
  subst hq
  have happ := tickGo_append (fun x : UploadEntry => x.state) (fun x => res x.id)
    pre (e :: post) 0 (by omega)
  have hmin : min MAX_UPLOADS_PER_TICK
      (0 + dcount (fun x : UploadEntry => x.state) pre) =
      dcount (fun x : UploadEntry => x.state) pre := by omega
  rw [hmin] at happ
  have hbud : ¬ MAX_UPLOADS_PER_TICK ≤ dcount (fun x : UploadEntry => x.state) pre := by
    omega
  rw [tickGo_cons_decoded hbud he post] at happ
  refine ⟨?_, ?_, ?_, ?_⟩
  · rw [TickFrame_true, happ]
    exact List.mem_append.mpr (Or.inr (List.mem_cons_self _ _))
  · rw [TickFrame_true, happ]
    intro hmem
    rcases List.mem_append.mp hmem with h | h
    · have hin : e ∈ pre := tickGo_rem_subset _ _ pre 0 e h
      exact hid (List.mem_map_of_mem (fun x => x.id)
        (List.mem_append.mpr (Or.inl hin)))
    · have hin : e ∈ post := tickGo_rem_subset _ _ post _ e h
      exact hid (List.mem_map_of_mem (fun x => x.id)
        (List.mem_append.mpr (Or.inr hin)))
  · rw [TickFrame_true, TickFrame_true]
    exact (tickGo_res_irrel (fun x : UploadEntry => x.state)
      (fun x => res x.id) (fun x => res2 x.id) (pre ++ e :: post) 0).1
  · rw [TickFrame_true, TickFrame_true]
    exact (tickGo_res_irrel (fun x : UploadEntry => x.state)
      (fun x => res x.id) (fun x => res2 x.id) (pre ++ e :: post) 0).2

/-- Witness for C10: in cq3 the Decoded entry id 2 is preceded by a
Pending and a Failed entry; its closure returns false, is invoked, and
the entry is still erased; the remaining queue equals the one obtained
when every closure returns true. -/
theorem tickFrame_discards_upload_result_witness :
    ((({ state := DecodeState.Decoded, id := 2 } : UploadEntry), false) ∈
       (TickFrame true (fun _ => false) cq3).2)
    ∧ ({ state := DecodeState.Decoded, id := 2 } : UploadEntry) ∉
        (TickFrame true (fun _ => false) cq3).1
    ∧ (TickFrame true (fun _ => false) cq3).1 = (TickFrame true (fun _ => true) cq3).1
    ∧ (TickFrame true (fun _ => false) cq3).2.map (fun p => p.1) =
        (TickFrame true (fun _ => true) cq3).2.map (fun p => p.1) :=
  tickFrame_discards_upload_result (fun _ => false) (fun _ => true) cq3
    [{ state := DecodeState.Pending, id := 0 }, { state := DecodeState.Failed, id := 1 }]
    [] { state := DecodeState.Decoded, id := 2 }
    rfl rfl (by decide) (by decide)

/-! ## Lemmas about the preload loop -/

theorem preloadLoop_halt (maxMem : Nat) (ok : Nat → Bool) (sz : Nat → Nat)
    (stop : Nat → Bool) (s idx : Nat) (f : Nat → Material) (hs : maxMem < s)
    (l : List Nat) : preloadLoop maxMem ok sz stop s idx f l = (f, s) := by
  cases l with
  | nil => rfl
  | cons h t => simp [preloadLoop, hs]

theorem preloadLoop_idx_irrel (maxMem : Nat) (ok : Nat → Bool) (sz : Nat → Nat) :
    ∀ (l : List Nat) (s idx idx2 : Nat) (f : Nat → Material),
      preloadLoop maxMem ok sz (fun _ => false) s idx f l =
        preloadLoop maxMem ok sz (fun _ => false) s idx2 f l := by
  intro l
  induction l with
  | nil => intro s idx idx2 f; rfl
  | cons h t ih =>
    intro s idx idx2 f
    by_cases hm : maxMem < s
    · simp [preloadLoop, hm]
    · simp only [preloadLoop, if_neg hm, Bool.false_eq_true, if_false]
      exact ih _ _ _ _

theorem preloadLoop_append (maxMem : Nat) (ok : Nat → Bool) (sz : Nat → Nat) :
    ∀ (l1 l2 : List Nat) (s idx : Nat) (f : Nat → Material),
      preloadLoop maxMem ok sz (fun _ => false) s idx f (l1 ++ l2) =
        preloadLoop maxMem ok sz (fun _ => false)
          (preloadLoop maxMem ok sz (fun _ => false) s idx f l1).2 idx
          (preloadLoop maxMem ok sz (fun _ => false) s idx f l1).1 l2 := by
  intro l1
  induction l1 with
  | nil => intro l2 s idx f; rfl
  | cons h t ih =>
    intro l2 s idx f
    by_cases hm : maxMem < s
    · rw [List.cons_append, preloadLoop_halt maxMem ok sz _ s idx f hm,
          preloadLoop_halt maxMem ok sz _ s idx f hm,
          preloadLoop_halt maxMem ok sz _ s idx f hm]
    · simp only [List.cons_append, preloadLoop, if_neg hm, Bool.false_eq_true, if_false]
      rw [List.append_eq, ih l2 _ (idx + 1) _]
      rw [preloadLoop_idx_irrel maxMem ok sz l2 _ (idx + 1) idx]

theorem preloadLoop_untouched (maxMem : Nat) (ok : Nat → Bool) (sz : Nat → Nat)
    (stop : Nat → Bool) :
    ∀ (l : List Nat) (s idx : Nat) (f : Nat → Material) (k : Nat), k ∉ l →
      (preloadLoop maxMem ok sz stop s idx f l).1 k = f k := by
  intro l
  induction l with
  | nil => intro s idx f k _; rfl
  | cons h t ih =>
    intro s idx f k hk
    have hkh : k ≠ h := fun he => hk (he ▸ List.mem_cons_self h t)
    have hkt : k ∉ t := fun he => hk (List.mem_cons_of_mem h he)
    by_cases hm : maxMem < s
    · rw [preloadLoop_halt maxMem ok sz stop s idx f hm]
    · by_cases hstop : stop idx
      · simp [preloadLoop, hm, hstop]
      · simp only [preloadLoop, if_neg hm, hstop, Bool.false_eq_true, if_false]
        rw [ih _ _ _ k hkt]
        simp [updateF, hkh]

/-! ## Claim C2 -/

/-- Claim C2, counterexample: a budget of 10 with two fresh materials of
decoded size 6 each (so the budget is smaller than the total, 12).  The
second material is the one whose load pushes the running sum over the
budget (6 to 12), so per the claim it should remain Unloaded; but the
abort check at custom_tex_manager.cpp:207 only compares the sum
accumulated so far (6, not over budget), so the loop loads it and it
ends Decoded. -/
theorem preload_processes_over_budget_material :
    (10 : Nat) < 6 + 6 ∧
    (preloadLoop 10 (fun _ => true) (fun _ => 6) (fun _ => false) 0 0 freshMats [1, 2]).1 2 =
      { state := DecodeState.Decoded, size := 6 } :=
  ⟨by omega, by decide⟩

/-- Claim C2 (amended): the preload loop stops strictly before the first
material at which the running decoded-byte sum of the materials already
loaded exceeds the budget - one material later than the claim states,
since the material whose own load pushes the sum over the budget is still
processed (see the counterexample).  Once the sum after a prefix o1 of the
iteration order exceeds the budget, the remaining materials o2 are never
touched: the table equals the one after o1 alone, and any material not in
o1 keeps its initial (Unloaded) state. -/
theorem preload_budget_abort_amended (maxMem : Nat) (ok : Nat → Bool) (sz : Nat → Nat)
    (f : Nat → Material) (o1 o2 : List Nat) (k : Nat)
    (hsum : maxMem < (preloadLoop maxMem ok sz (fun _ => false) 0 0 f o1).2)
    (hk : k ∉ o1) :
    (preloadLoop maxMem ok sz (fun _ => false) 0 0 f (o1 ++ o2)).1 =
      (preloadLoop maxMem ok sz (fun _ => false) 0 0 f o1).1
    ∧ (preloadLoop maxMem ok sz (fun _ => false) 0 0 f (o1 ++ o2)).1 k = f k := by
  have happ := preloadLoop_append maxMem ok sz o1 o2 0 0 f
  rw [preloadLoop_halt maxMem ok sz _ _ 0 _ hsum o2] at happ
  refine ⟨by rw [happ], ?_⟩
  rw [happ]
  exact preloadLoop_untouched maxMem ok sz _ o1 0 0 f k hk

/-- Witness for C2 (amended): budget 10, loads of size 6; after o1 = [1, 2]
the sum 12 exceeds the budget, so material 3 stays exactly as fresh. -/
theorem preload_budget_abort_amended_witness :
    ((preloadLoop 10 (fun _ => true) (fun _ => 6) (fun _ => false) 0 0 freshMats
        ([1, 2] ++ [3])).1 =
      (preloadLoop 10 (fun _ => true) (fun _ => 6) (fun _ => false) 0 0 freshMats [1, 2]).1)
    ∧ (preloadLoop 10 (fun _ => true) (fun _ => 6) (fun _ => false) 0 0 freshMats
        ([1, 2] ++ [3])).1 3 = freshMats 3 :=
  preload_budget_abort_amended 10 (fun _ => true) (fun _ => 6) freshMats [1, 2] [3] 3
    (by decide) (by decide)

/-! ## Claim C4 -/

/-- Claim C4: Decode on a material in Unloaded state with asynchronous
custom loading enabled returns false, leaves the material Pending (its
background job has been queued but not run), appends exactly one
{material, upload} entry to the upload queue, and enqueues the decode job
(custom_tex_manager.cpp:289-297). -/
theorem decode_unloaded_async (s : SysState) (m cid : Nat) (ok : Bool) (sz : Nat)
    (ures : Bool) (hasync : s.async_custom_loading = true)
    (hm : (s.mats m).state = DecodeState.Unloaded) :
    (DecodeOp s m cid ok sz ures).1 = false
    ∧ ((DecodeOp s m cid ok sz ures).2.mats m).state = DecodeState.Pending
    ∧ (DecodeOp s m cid ok sz ures).2.uploads = s.uploads ++ [(m, cid)]
    ∧ (DecodeOp s m cid ok sz ures).2.jobs = s.jobs ++ [m] := by
  simp [DecodeOp, hasync, hm, updateF]

/-- Witness for C4 at the post-discovery state ds0, material 5, closure 7. -/
theorem decode_unloaded_async_witness :
    (DecodeOp ds0 5 7 true 9 true).1 = false
    ∧ ((DecodeOp ds0 5 7 true 9 true).2.mats 5).state = DecodeState.Pending
    ∧ (DecodeOp ds0 5 7 true 9 true).2.uploads = ds0.uploads ++ [(5, 7)]
    ∧ (DecodeOp ds0 5 7 true 9 true).2.jobs = ds0.jobs ++ [5] :=
  decode_unloaded_async ds0 5 7 true 9 true rfl rfl

/-! ## Lemmas about the decode state order -/

theorem stateLe_refl (a : DecodeState) : stateLe a a = true := by
  cases a <;> rfl

theorem stateLe_trans (a b c : DecodeState) (h1 : stateLe a b = true)
    (h2 : stateLe b c = true) : stateLe a c = true := by
  cases a <;> cases b <;> cases c <;> simp_all [stateLe]

theorem stateLe_not_unloaded (a b : DecodeState) (h : stateLe a b = true)
    (ha : a ≠ DecodeState.Unloaded) : b ≠ DecodeState.Unloaded := by
  cases a <;> cases b <;> simp_all [stateLe]

theorem load_le (ok : Bool) (sz : Nat) (m : Material) :
    stateLe m.state (LoadFromDisk ok sz m).state = true := by
  cases hm : m.state with
  | Unloaded => cases ok <;> simp [LoadFromDisk, hm, stateLe]
  | Pending => cases ok <;> simp [LoadFromDisk, hm, stateLe]
  | Decoded => simp [LoadFromDisk, hm, stateLe]
  | Failed => simp [LoadFromDisk, hm, stateLe]

theorem updateF_le (f : Nat → Material) (k : Nat) (v : Material) (m : Nat)
    (hv : stateLe ((f k).state) v.state = true) :
    stateLe ((f m).state) ((updateF f k v m).state) = true := by
  by_cases hmk : m = k
  · subst hmk; simp [updateF, hv]
  · simp [updateF, hmk, stateLe_refl]

theorem preloadLoop_le (maxMem : Nat) (ok : Nat → Bool) (sz : Nat → Nat)
    (stop : Nat → Bool) :
    ∀ (l : List Nat) (s idx : Nat) (f : Nat → Material) (m : Nat),
      stateLe ((f m).state) (((preloadLoop maxMem ok sz stop s idx f l).1 m).state) =
        true := by
  intro l
  induction l with
  | nil => intro s idx f m; exact stateLe_refl _
  | cons h t ih =>
    intro s idx f m
    by_cases hm : maxMem < s
    · rw [preloadLoop_halt maxMem ok sz stop s idx f hm]
      exact stateLe_refl _
    · by_cases hstop : stop idx
      · simp only [preloadLoop, if_neg hm, hstop, if_true]
        exact stateLe_refl _
      · simp only [preloadLoop, if_neg hm, hstop, Bool.false_eq_true, if_false]
        refine stateLe_trans _ _ _ ?_ (ih _ _ _ m)
        exact updateF_le f h _ m (load_le (ok h) (sz h) (f h))

theorem stepEv_le (s : SysState) (e : Event) (m : Nat) :
    stateLe ((s.mats m).state) (((stepEv s e).mats m).state) = true := by
  cases e with
  | decodeCall m2 cid ok sz ures =>
    simp only [stepEv, DecodeOp]
    by_cases ha : s.async_custom_loading
    · simp only [ha, if_true]
      by_cases hu : (s.mats m2).state = DecodeState.Unloaded
      · simp only [if_pos hu]
        refine updateF_le s.mats m2 _ m ?_
        rw [hu]; rfl
      · simp only [if_neg hu]
        exact stateLe_refl _
    · simp only [Bool.not_eq_true] at ha
      simp only [ha, Bool.false_eq_true, if_false]
      exact updateF_le s.mats m2 _ m (load_le ok sz (s.mats m2))
  | jobRun m2 ok sz =>
    simp only [stepEv, JobRunOp]
    by_cases hj : m2 ∈ s.jobs
    · simp only [if_pos hj]
      exact updateF_le s.mats m2 _ m (load_le ok sz (s.mats m2))
    · simp only [if_neg hj]
      exact stateLe_refl _
  | preload order maxMem ok sz stop =>
    simp only [stepEv, PreloadOp]
    exact preloadLoop_le maxMem ok sz stop order 0 0 s.mats m
  | tick =>
    simp only [stepEv, TickOp]
    by_cases hl : s.textures_loaded
    · simp only [if_pos hl]
      exact stateLe_refl _
    · simp only [if_neg hl]
      exact stateLe_refl _

theorem runTrace_append (s : SysState) (tr tr2 : List Event) :
    runTrace s (tr ++ tr2) = runTrace (runTrace s tr) tr2 := by
  simp [runTrace, List.foldl_append]

theorem runTrace_le (m : Nat) :
    ∀ (tr : List Event) (s : SysState),
      stateLe ((s.mats m).state) (((runTrace s tr).mats m).state) = true := by
  intro tr
  induction tr with
  | nil => intro s; exact stateLe_refl _
  | cons e t ih =>
    intro s
    exact stateLe_trans _ _ _ (stepEv_le s e m) (ih (stepEv s e))

theorem stepEv_not_unloaded (s : SysState) (e : Event) (m : Nat)
    (h : (s.mats m).state ≠ DecodeState.Unloaded) :
    ((stepEv s e).mats m).state ≠ DecodeState.Unloaded :=
  stateLe_not_unloaded _ _ (stepEv_le s e m) h

theorem enqCount_zero (m : Nat) :
    ∀ (tr : List Event) (s : SysState),
      (s.mats m).state ≠ DecodeState.Unloaded → enqCount m s tr = 0 := by
  intro tr
  induction tr with
  | nil => intro s _; rfl
  | cons e t ih =>
    intro s h
    have hstep := ih (stepEv s e) (stepEv_not_unloaded s e m h)
    cases e with
    | decodeCall m2 cid ok sz ures =>
      have hcond : ¬ (s.async_custom_loading ∧ m2 = m ∧
          (s.mats m2).state = DecodeState.Unloaded) := by
        rintro ⟨_, rfl, hu⟩
        exact h hu
      simp only [enqCount, enqueuedBy, if_neg hcond, hstep]
    | jobRun m2 ok sz => simp only [enqCount, enqueuedBy, hstep]
    | preload order maxMem ok sz stop => simp only [enqCount, enqueuedBy, hstep]
    | tick => simp only [enqCount, enqueuedBy, hstep]

theorem enqCount_le_one (m : Nat) :
    ∀ (tr : List Event) (s : SysState), enqCount m s tr ≤ 1 := by
  intro tr
  induction tr with
  | nil => intro s; exact Nat.zero_le 1
  | cons e t ih =>
    intro s
    cases e with
    | decodeCall m2 cid ok sz ures =>
      by_cases hc : s.async_custom_loading ∧ m2 = m ∧
          (s.mats m2).state = DecodeState.Unloaded
      · have hpend : ((stepEv s (Event.decodeCall m2 cid ok sz ures)).mats m).state =
            DecodeState.Pending := by
          rcases hc with ⟨ha, rfl, hu⟩
          simp [stepEv, DecodeOp, ha, hu, updateF]
        have h0 := enqCount_zero m t (stepEv s (Event.decodeCall m2 cid ok sz ures))
          (by rw [hpend]; intro hx; cases hx)
        simp only [enqCount, enqueuedBy, if_pos hc, h0]
        omega
      · have := ih (stepEv s (Event.decodeCall m2 cid ok sz ures))
        simp only [enqCount, enqueuedBy, if_neg hc]
        omega
    | jobRun m2 ok sz =>
      have := ih (stepEv s (Event.jobRun m2 ok sz))
      simp only [enqCount, enqueuedBy]
      omega
    | preload order maxMem ok sz stop =>
      have := ih (stepEv s (Event.preload order maxMem ok sz stop))
      simp only [enqCount, enqueuedBy]
      omega
    | tick =>
      have := ih (stepEv s Event.tick)
      simp only [enqCount, enqueuedBy]
      omega

/-! ## Claim C5 -/

/-- Claim C5: along every sequential trace of manager operations from the
post-discovery state, the decode state of each material only advances along
Unloaded to Pending to (Decoded or Failed) - Decoded and Failed are
terminal under the stateLe order, and a state never returns to Pending or
Unloaded after leaving it - and at most one decode job is ever enqueued
per material: DecodeOp enqueues one only on its Unloaded-to-Pending
transition (custom_tex_manager.cpp:289-292) and neither PreloadTextures
(which loads materials inside its single job, lines 205-221) nor any other
operation enqueues a per-material decode job. -/
theorem material_state_monotone_and_single_job (a b : Bool) (tr tr2 : List Event)
    (m : Nat) :
    stateLe (((runTrace (initState a b) tr).mats m).state)
        (((runTrace (initState a b) (tr ++ tr2)).mats m).state) = true
    ∧ enqCount m (initState a b) tr ≤ 1 := by
  constructor
  · rw [runTrace_append]
    exact runTrace_le m tr2 (runTrace (initState a b) tr)
  · exact enqCount_le_one m tr (initState a b)

/-! ## Character-class lemmas for the sscanf model -/

theorem digit_not_space (c : Char) (h : isDigitB c = true) : isSpaceB c = false := by
  have h1 : c ≠ ' ' := by rintro rfl; exact absurd h (by decide)
  have h2 : c ≠ '\t' := by rintro rfl; exact absurd h (by decide)
  have h3 : c ≠ '\n' := by rintro rfl; exact absurd h (by decide)
  have h4 : c ≠ '\x0b' := by rintro rfl; exact absurd h (by decide)
  have h5 : c ≠ '\x0c' := by rintro rfl; exact absurd h (by decide)
  have h6 : c ≠ '\r' := by rintro rfl; exact absurd h (by decide)
  simp [isSpaceB, h1, h2, h3, h4, h5, h6]

theorem digit_sign_false (c : Char) (h : isDigitB c = true) :
    (c == '+' || c == '-') = false := by
  have h1 : c ≠ '+' := by rintro rfl; exact absurd h (by decide)
  have h2 : c ≠ '-' := by rintro rfl; exact absurd h (by decide)
  simp [h1, h2]

theorem hex_not_space (c : Char) (h : isHexDigitB c = true) : isSpaceB c = false := by
  have h1 : c ≠ ' ' := by rintro rfl; exact absurd h (by decide)
  have h2 : c ≠ '\t' := by rintro rfl; exact absurd h (by decide)
  have h3 : c ≠ '\n' := by rintro rfl; exact absurd h (by decide)
  have h4 : c ≠ '\x0b' := by rintro rfl; exact absurd h (by decide)
  have h5 : c ≠ '\x0c' := by rintro rfl; exact absurd h (by decide)
  have h6 : c ≠ '\r' := by rintro rfl; exact absurd h (by decide)
  simp [isSpaceB, h1, h2, h3, h4, h5, h6]

theorem hex_sign_false (c : Char) (h : isHexDigitB c = true) :
    (c == '+' || c == '-') = false := by
  have h1 : c ≠ '+' := by rintro rfl; exact absurd h (by decide)
  have h2 : c ≠ '-' := by rintro rfl; exact absurd h (by decide)
  simp [h1, h2]

theorem hex_ne_xX (c : Char) (h : isHexDigitB c = true) :
    (c == 'x') = false ∧ (c == 'X') = false := by
  have h1 : c ≠ 'x' := by rintro rfl; exact absurd h (by decide)
  have h2 : c ≠ 'X' := by rintro rfl; exact absurd h (by decide)
  simp [h1, h2]

theorem digit_ne_dot (c : Char) (h : isDigitB c = true) : (c == '.') = false := by
  have h1 : c ≠ '.' := by rintro rfl; exact absurd h (by decide)
  simp [h1]

theorem hex_ne_dot (c : Char) (h : isHexDigitB c = true) : (c == '.') = false := by
  have h1 : c ≠ '.' := by rintro rfl; exact absurd h (by decide)
  simp [h1]

/-! ## takeWhile and dropWhile over a satisfying prefix -/

theorem takeWhile_append_all (p : Char → Bool) :
    ∀ (l1 l2 : List Char), (∀ c ∈ l1, p c = true) →
      (l1 ++ l2).takeWhile p = l1 ++ l2.takeWhile p := by
  intro l1
  induction l1 with
  | nil => intro l2 _; rfl
  | cons c t ih =>
    intro l2 hall
    have hc : p c = true := hall c (List.mem_cons_self c t)
    simp only [List.cons_append, List.takeWhile_cons, hc, if_true]
    rw [ih l2 (fun x hx => hall x (List.mem_cons_of_mem c hx))]

theorem dropWhile_append_all (p : Char → Bool) :
    ∀ (l1 l2 : List Char), (∀ c ∈ l1, p c = true) →
      (l1 ++ l2).dropWhile p = l2.dropWhile p := by
  intro l1
  induction l1 with
  | nil => intro l2 _; rfl
  | cons c t ih =>
    intro l2 hall
    have hc : p c = true := hall c (List.mem_cons_self c t)
    simp only [List.cons_append, List.dropWhile_cons, hc, if_true]
    exact ih l2 (fun x hx => hall x (List.mem_cons_of_mem c hx))

theorem takeWhile_head_false (p : Char → Bool) (l : List Char)
    (h : ∀ c, l.head? = some c → p c = false) : l.takeWhile p = [] := by
  cases l with
  | nil => rfl
  | cons c t =>
    have := h c rfl
    simp [List.takeWhile_cons, this]

theorem dropWhile_head_false (p : Char → Bool) (l : List Char)
    (h : ∀ c, l.head? = some c → p c = false) : l.dropWhile p = l := by
  cases l with
  | nil => rfl
  | cons c t =>
    have := h c rfl
    simp [List.dropWhile_cons, this]

/-! ## Behavior of the sscanf conversions on well-shaped input -/

theorem scanU_digits (w rest : List Char) (hw : w ≠ [])
    (hwd : ∀ c ∈ w, isDigitB c = true)
    (hrest : ∀ c, rest.head? = some c → isDigitB c = false) :
    scanU (w ++ rest) = some rest := by
  cases w with
  | nil => exact absurd rfl hw
  | cons c t =>
    have hc : isDigitB c = true := hwd c (List.mem_cons_self c t)
    have hdrop : ((c :: t) ++ rest).dropWhile isSpaceB = (c :: t) ++ rest := by
      simp [List.dropWhile_cons, digit_not_space c hc]
    have hsign : dropSign ((c :: t) ++ rest) = (c :: t) ++ rest := by
      simp [dropSign, digit_sign_false c hc]
    have htake : ((c :: t) ++ rest).takeWhile isDigitB = (c :: t) ++ rest.takeWhile isDigitB :=
      takeWhile_append_all isDigitB (c :: t) rest hwd
    have hdrop2 : ((c :: t) ++ rest).dropWhile isDigitB = rest := by
      rw [dropWhile_append_all isDigitB (c :: t) rest hwd,
          dropWhile_head_false isDigitB rest hrest]
    simp only [scanU, hdrop, hsign, htake, hdrop2]
    simp

theorem scanLLX_hex (hx rest : List Char) (hx0 : hx ≠ [])
    (hxd : ∀ c ∈ hx, isHexDigitB c = true)
    (hrest : ∀ c, rest.head? = some c →
      isHexDigitB c = false ∧ (c == 'x') = false ∧ (c == 'X') = false) :
    scanLLX (hx ++ rest) = some (hexValue hx % 2 ^ 64, rest) := by
  cases hx with
  | nil => exact absurd rfl hx0
  | cons c t =>
    have hc : isHexDigitB c = true := hxd c (List.mem_cons_self c t)
    have hdrop : ((c :: t) ++ rest).dropWhile isSpaceB = (c :: t) ++ rest := by
      simp [List.dropWhile_cons, hex_not_space c hc]
    have hneg : signNeg ((c :: t) ++ rest) = false := by
      have h1 : c ≠ '-' := by rintro rfl; exact absurd hc (by decide)
      simp [signNeg, h1]
    have hsign : dropSign ((c :: t) ++ rest) = (c :: t) ++ rest := by
      simp [dropSign, hex_sign_false c hc]
    have h0x : drop0x ((c :: t) ++ rest) = (c :: t) ++ rest := by
      cases t with
      | nil =>
        cases rest with
        | nil => rfl
        | cons r0 rr =>
          have hr0 := hrest r0 rfl
          simp [drop0x, hr0.2.1, hr0.2.2]
      | cons c2 t2 =>
        have hc2 : isHexDigitB c2 = true := hxd c2 (List.mem_cons_of_mem c
          (List.mem_cons_self c2 t2))
        have hxx := hex_ne_xX c2 hc2
        simp [drop0x, hxx.1, hxx.2]
    have htake : ((c :: t) ++ rest).takeWhile isHexDigitB = (c :: t) := by
      rw [takeWhile_append_all isHexDigitB (c :: t) rest hxd,
          takeWhile_head_false isHexDigitB rest (fun x hxh => (hrest x hxh).1)]
      simp
    have hdrop2 : ((c :: t) ++ rest).dropWhile isHexDigitB = rest := by
      rw [dropWhile_append_all isHexDigitB (c :: t) rest hxd,
          dropWhile_head_false isHexDigitB rest (fun x hxh => (hrest x hxh).1)]
    simp only [scanLLX, hdrop, hneg, hsign, h0x, htake, hdrop2]
    simp

theorem scanLit_cons_self (c : Char) (r : List Char) : scanLit c (c :: r) = some r := by
  simp [scanLit]

/-- The sscanf pattern succeeds on every well-shaped
tex1_{width}x{height}_{hash}_{format} base name and extracts the hash. -/
theorem scanfTex1_pattern (w h f hx : List Char)
    (hw : w ≠ []) (hwd : ∀ c ∈ w, isDigitB c = true)
    (hh : h ≠ []) (hhd : ∀ c ∈ h, isDigitB c = true)
    (hf : f ≠ []) (hfd : ∀ c ∈ f, isDigitB c = true)
    (hx0 : hx ≠ []) (hxd : ∀ c ∈ hx, isHexDigitB c = true) :
    scanfTex1 ('t' :: 'e' :: 'x' :: '1' :: '_' ::
        (w ++ 'x' :: (h ++ '_' :: (hx ++ '_' :: f)))) =
      some (hexValue hx % 2 ^ 64) := by
  have hsw : scanU (w ++ 'x' :: (h ++ '_' :: (hx ++ '_' :: f))) =
      some ('x' :: (h ++ '_' :: (hx ++ '_' :: f))) :=
    scanU_digits w _ hw hwd (by intro c hc; cases hc; decide)
  have hsh : scanU (h ++ '_' :: (hx ++ '_' :: f)) = some ('_' :: (hx ++ '_' :: f)) :=
    scanU_digits h _ hh hhd (by intro c hc; cases hc; decide)
  have hsx : scanLLX (hx ++ '_' :: f) = some (hexValue hx % 2 ^ 64, '_' :: f) :=
    scanLLX_hex hx _ hx0 hxd (by intro c hc; cases hc; exact ⟨by decide, by decide, by decide⟩)
  have hsf : scanU (f ++ []) = some [] :=
    scanU_digits f [] hf hfd (by intro c hc; cases hc)
  rw [List.append_nil] at hsf
  simp only [scanfTex1, scanLit_cons_self, Option.bind_eq_bind, Option.some_bind,
    hsw, hsh, hsx, hsf]
  rfl

/-! ## SplitString on a base name plus extension -/

theorem splitGo_no_delim (d : Char) :
    ∀ (l acc : List Char), (∀ c ∈ l, (c == d) = false) →
      splitGo d acc l = [acc.reverse ++ l] := by
  intro l
  induction l with
  | nil => intro acc _; simp [splitGo]
  | cons c t ih =>
    intro acc hall
    have hc : (c == d) = false := hall c (List.mem_cons_self c t)
    simp only [splitGo, hc, Bool.false_eq_true, if_false]
    rw [ih (c :: acc) (fun x hxm => hall x (List.mem_cons_of_mem c hxm))]
    simp

theorem splitGo_delim_append (d : Char) :
    ∀ (l1 acc l2 : List Char), (∀ c ∈ l1, (c == d) = false) → l2 ≠ [] →
      splitGo d acc (l1 ++ d :: l2) = (acc.reverse ++ l1) :: splitGo d [] l2 := by
  intro l1
  induction l1 with
  | nil =>
    intro acc l2 _ hl2
    cases l2 with
    | nil => exact absurd rfl hl2
    | cons x xs => simp [splitGo]
  | cons c t ih =>
    intro acc l2 hall hl2
    have hc : (c == d) = false := hall c (List.mem_cons_self c t)
    simp only [List.cons_append, splitGo, hc, Bool.false_eq_true, if_false]
    rw [List.append_eq, ih (c :: acc) l2 (fun x hxm => hall x (List.mem_cons_of_mem c hxm)) hl2]
    simp

theorem SplitString_base_ext (base ext : List Char)
    (hb : ∀ c ∈ base, (c == '.') = false) (he : ∀ c ∈ ext, (c == '.') = false)
    (hext : ext ≠ []) :
    SplitString (base ++ '.' :: ext) '.' = [base, ext] := by
  have hne : (base ++ '.' :: ext).isEmpty = false := by
    cases base <;> rfl
  simp only [SplitString, hne, Bool.false_eq_true, if_false]
  rw [splitGo_delim_append '.' base [] ext hb hext, splitGo_no_delim '.' ext [] he]
  simp

theorem String_mk_data (s : String) : String.mk s.data = s := rfl

/-- ParseFilename on a two-segment name base.ext with a recognized
extension and no PathOverride entry reduces to the sscanf pattern match
on the base segment. -/
theorem ParseFilename_pattern_case (refuse_dds : Bool) (pmap : List (String × Nat))
    (physicalName : String) (base : List Char) (ext : String)
    (hb : ∀ c ∈ base, (c == '.') = false)
    (he : ∀ c ∈ ext.data, (c == '.') = false) (hene : ext.data ≠ [])
    (hfmt : MakeFileFormat ext ≠ CustomFileFormat.None)
    (hdds : ¬ (MakeFileFormat ext = CustomFileFormat.DDS ∧ refuse_dds = true))
    (hov : pmap.lookup (String.mk (base ++ '.' :: ext.data)) = none) :
    ParseFilename refuse_dds pmap (String.mk (base ++ '.' :: ext.data)) physicalName =
      match scanfTex1 base with
      | some hsh => some { hash := hsh, file_format := MakeFileFormat ext,
                           type := MapType.Color, path := physicalName }
      | none => none := by
  have hdata : (String.mk (base ++ '.' :: ext.data)).data = base ++ '.' :: ext.data := rfl
  have hsplit := SplitString_base_ext base ext.data hb he hene
  simp only [ParseFilename, hdata, hsplit, List.length_cons, List.length_nil,
    List.getLast?_cons_cons, List.getLast?_singleton, String_mk_data,
    List.dropLast_cons₂, List.dropLast_single, List.getLastD, hov,
    if_neg hfmt, if_neg hdds]
  norm_num

/-! ## Claim C6 -/

/-- Claim C6: for every base segment of the exact shape
tex1_{W}x{H}_{H64}_{F} (W, H, F nonempty decimal digit strings, H64 a
nonempty hexadecimal digit string of 64-bit value) with a recognized
extension (png or ktx, or dds when refuse_dds is false) and no
PathOverride entry for the filename, ParseFilename accepts the file and
yields hash = H64 and file_format = MakeFileFormat ext, independent of
the W, H, F values; and when the sscanf pattern fails on the base segment
of such a two-segment filename (any of the four fields fails to parse),
the file is rejected. -/
theorem parse_filename_pattern_ok (refuse_dds : Bool) (pmap : List (String × Nat))
    (physicalName : String) (ext : String) (w h f hx base2 : List Char)
    (hfmt : MakeFileFormat ext ≠ CustomFileFormat.None)
    (hdds : ¬ (MakeFileFormat ext = CustomFileFormat.DDS ∧ refuse_dds = true))
    (hw : w ≠ []) (hwd : ∀ c ∈ w, isDigitB c = true)
    (hh : h ≠ []) (hhd : ∀ c ∈ h, isDigitB c = true)
    (hf : f ≠ []) (hfd : ∀ c ∈ f, isDigitB c = true)
    (hx0 : hx ≠ []) (hxd : ∀ c ∈ hx, isHexDigitB c = true)
    (hlt : hexValue hx < 2 ^ 64)
    (hov : pmap.lookup (String.mk
      (('t' :: 'e' :: 'x' :: '1' :: '_' :: (w ++ 'x' :: (h ++ '_' :: (hx ++ '_' :: f)))) ++
        '.' :: ext.data)) = none)
    (hb2 : ∀ c ∈ base2, (c == '.') = false)
    (hscan : scanfTex1 base2 = none)
    (hov2 : pmap.lookup (String.mk (base2 ++ '.' :: ext.data)) = none) :
    ParseFilename refuse_dds pmap (String.mk
        (('t' :: 'e' :: 'x' :: '1' :: '_' :: (w ++ 'x' :: (h ++ '_' :: (hx ++ '_' :: f)))) ++
          '.' :: ext.data)) physicalName =
      some { hash := hexValue hx, file_format := MakeFileFormat ext,
             type := MapType.Color, path := physicalName }
    ∧ ParseFilename refuse_dds pmap (String.mk (base2 ++ '.' :: ext.data)) physicalName =
        none := by
  have hext3 : ext = "png" ∨ ext = "dds" ∨ ext = "ktx" := by
    by_contra hcon
    push_neg at hcon
    apply hfmt
    unfold MakeFileFormat
    rw [if_neg hcon.1, if_neg hcon.2.1, if_neg hcon.2.2]
  have he : ∀ c ∈ ext.data, (c == '.') = false := by
    rcases hext3 with hq | hq | hq <;> subst hq <;> decide
  have hene : ext.data ≠ [] := by
    rcases hext3 with hq | hq | hq <;> subst hq <;> decide
  have hbase : ∀ c ∈ 't' :: 'e' :: 'x' :: '1' :: '_' ::
      (w ++ 'x' :: (h ++ '_' :: (hx ++ '_' :: f))), (c == '.') = false := by
    intro c hc
    simp only [List.mem_cons, List.mem_append] at hc
    rcases hc with rfl | rfl | rfl | rfl | rfl | hc | rfl | hc | rfl | hc | rfl | hc
    · decide
    · decide
    · decide
    · decide
    · decide
    · exact digit_ne_dot c (hwd c hc)
    · decide
    · exact digit_ne_dot c (hhd c hc)
    · decide
    · exact hex_ne_dot c (hxd c hc)
    · decide
    · exact digit_ne_dot c (hfd c hc)
  constructor
  · rw [ParseFilename_pattern_case refuse_dds pmap physicalName _ ext hbase he hene
        hfmt hdds hov]
    rw [scanfTex1_pattern w h f hx hw hwd hh hhd hf hfd hx0 hxd]
    rw [Nat.mod_eq_of_lt hlt]
  · rw [ParseFilename_pattern_case refuse_dds pmap physicalName base2 ext hb2 he hene
        hfmt hdds hov2]
    rw [hscan]

/-- Witness for C6: the filename tex1_32x32_AB_0.png parses to hash 0xAB
with PNG format, and the malformed base name hello (the pattern fails at
its first literal) with extension png is rejected. -/
theorem parse_filename_pattern_ok_witness :
    ParseFilename false [] (String.mk
        (('t' :: 'e' :: 'x' :: '1' :: '_' ::
          (['3', '2'] ++ 'x' :: (['3', '2'] ++ '_' :: (['A', 'B'] ++ '_' :: ['0'])))) ++
          '.' :: "png".data)) "phys" =
      some { hash := 171, file_format := CustomFileFormat.PNG,
             type := MapType.Color, path := "phys" }
    ∧ ParseFilename false [] (String.mk
        (['h', 'e', 'l', 'l', 'o'] ++ '.' :: "png".data)) "phys" = none :=
  parse_filename_pattern_ok false [] "phys" "png"
    ['3', '2'] ['3', '2'] ['0'] ['A', 'B'] ['h', 'e', 'l', 'l', 'o']
    (by decide) (by simp) (by decide) (by decide) (by decide) (by decide)
    (by decide) (by decide) (by decide) (by decide) (by decide) rfl
    (by decide) (by decide) rfl

/-! ## Claim C9 -/

/-- Claim C9: sscanf does not anchor the end of the pattern, so a base
name of which tex1_{width}x{height}_{hash}_{format} is only a proper
prefix is still accepted, the trailing characters being silently ignored:
tex1_32x32_AB_0junk.png parses successfully to hash 0xAB. -/
theorem parse_filename_ignores_trailing_junk :
    ParseFilename false [] "tex1_32x32_AB_0junk.png" "phys" =
      some { hash := 171, file_format := CustomFileFormat.PNG,
             type := MapType.Color, path := "phys" } := by decide

/-! ## Lemmas about ReadConfig -/

theorem applyOverride_refuse (hash : Nat) (st : ConfigState) (file : String) :
    (applyOverride hash st file).refuse_dds = st.refuse_dds := rfl

theorem foldl_applyOverride_refuse (hash : Nat) :
    ∀ (fs : List String) (st : ConfigState),
      (fs.foldl (applyOverride hash) st).refuse_dds = st.refuse_dds := by
  intro fs
  induction fs with
  | nil => intro st; rfl
  | cons x t ih =>
    intro st
    rw [List.foldl_cons, ih (applyOverride hash st x), applyOverride_refuse]

theorem applyTexturesEntry_refuse (st st2 : ConfigState) (e : String × JVal)
    (h : applyTexturesEntry st e = Except.ok st2) : st2.refuse_dds = st.refuse_dds := by
  unfold applyTexturesEntry at h
  cases hst : stoullHex e.1 with
  | error msg => rw [hst] at h; cases h
  | ok p =>
    obtain ⟨v, ix⟩ := p
    simp only [hst] at h
    by_cases hix : ix = 0
    · rw [if_pos hix] at h
      cases h
      rfl
    · rw [if_neg hix] at h
      cases hv : e.2 with
      | jstr fl =>
        rw [hv] at h
        cases h
        exact applyOverride_refuse v st fl
      | jarr fs =>
        rw [hv] at h
        cases h
        exact foldl_applyOverride_refuse v fs st
      | jother =>
        rw [hv] at h
        cases h
        rfl

theorem texturesFold_refuse :
    ∀ (l : List (String × JVal)) (st st2 : ConfigState),
      l.foldlM applyTexturesEntry st = Except.ok st2 → st2.refuse_dds = st.refuse_dds := by
  intro l
  induction l with
  | nil =>
    intro st st2 h
    cases h
    rfl
  | cons e t ih =>
    intro st st2 h
    rw [List.foldlM_cons] at h
    cases happ : applyTexturesEntry st e with
    | error msg => rw [happ] at h; cases h
    | ok st3 =>
      rw [happ] at h
      have h3 : st3.refuse_dds = st.refuse_dds := applyTexturesEntry_refuse st st3 e happ
      rw [← h3]
      exact ih st3 st2 h

/-! ## Claim C3 -/

/-- Claim C3, counterexample: a descriptor that opens but reads zero bytes
(an empty or unreadable pack.json) makes ReadConfig return at
custom_tex_manager.cpp:310-312 without touching refuse_dds: starting from
refuse_dds = false, the flag is still false afterwards even though no
descriptor with skip_mipmap = false and use_new_hash = true was
successfully read, contradicting both that refuse_dds is true whenever the
descriptor is unreadable and that it is false only after a successful
read. -/
theorem readconfig_empty_file_keeps_refuse_dds :
    ReadConfig emptyCfgInput cfg0 = Except.ok cfg0 ∧ cfg0.refuse_dds = false :=
  ⟨rfl, rfl⟩

/-- Claim C3 (amended): after a non-throwing ReadConfig, refuse_dds is
true when the descriptor failed to open (legacy mode); it is left at its
prior value when the descriptor opened but ReadBytes returned zero; and
when the descriptor content was read it equals
skip_mipmap || not use_new_hash.  So refuse_dds can be false without a
successfully read descriptor only through the zero-bytes path (see the
counterexample). -/
theorem readconfig_refuse_dds_amended (input : ConfigFileInput) (st st2 : ConfigState)
    (hok : ReadConfig input st = Except.ok st2) :
    st2.refuse_dds =
      if input.opens then
        (if input.readSize = 0 then st.refuse_dds
         else (input.json.skip_mipmap || !input.json.use_new_hash))
      else true := by
  by_cases ho : input.opens
  · rw [if_pos ho]
    by_cases hr : input.readSize = 0
    · rw [if_pos hr]
      have heq : ReadConfig input st = Except.ok st := by
        simp [ReadConfig, ho, hr]
      rw [heq] at hok
      cases hok
      rfl
    · rw [if_neg hr]
      have heq : ReadConfig input st =
          input.json.textures.foldlM applyTexturesEntry
            { st with skip_mipmap := input.json.skip_mipmap,
                      flip_png_files := input.json.flip_png_files,
                      use_new_hash := input.json.use_new_hash,
                      refuse_dds := input.json.skip_mipmap || !input.json.use_new_hash } := by
        simp [ReadConfig, ho, hr]
      rw [heq] at hok
      exact texturesFold_refuse input.json.textures _ st2 hok
  · have heq : ReadConfig input st = Except.ok { st with refuse_dds := true } := by
      have hno : input.opens = false := by
        cases hop : input.opens
        · rfl
        · exact absurd hop ho
      simp [ReadConfig, hno]
    rw [heq] at hok
    cases hok
    rw [if_neg ho]

/-- Witness for C3 (amended): the descriptor skipMipmapCfgInput is read
with skip_mipmap = true, giving refuse_dds = true. -/
theorem readconfig_refuse_dds_amended_witness :
    ({ skip_mipmap := true, flip_png_files := false, use_new_hash := true,
       refuse_dds := true, path_to_hash_map := [] } : ConfigState).refuse_dds =
      if skipMipmapCfgInput.opens then
        (if skipMipmapCfgInput.readSize = 0 then cfg0.refuse_dds
         else (skipMipmapCfgInput.json.skip_mipmap ||
           !skipMipmapCfgInput.json.use_new_hash))
      else true :=
  readconfig_refuse_dds_amended skipMipmapCfgInput cfg0
    { skip_mipmap := true, flip_png_files := false, use_new_hash := true,
      refuse_dds := true, path_to_hash_map := [] } rfl

/-! ## Claim C7 -/

/-- Claim C7 (code bug): the claim states a malformed textures entry is
skipped with a log and the rest of the config still applied, and the code
itself contains the guard `if (!idx)` with the log "Key is invalid,
skipping" intended to do exactly that (custom_tex_manager.cpp:324-329);
but std::stoull throws std::invalid_argument on a key with no hexadecimal
prefix instead of returning with idx == 0 (it never does), so the guard
is dead and the exception propagates out of ReadConfig: on the textures
table with key "zzz" the whole call aborts and the following well-formed
entry 00AB is never applied. -/
theorem readconfig_invalid_key_throws :
    ReadConfig badKeyCfgInput cfg0 = Except.error "invalid_argument" := rfl

/-! ## Lemmas about DumpTexture -/

theorem DumpTexture_cases (c : Bool) (pid : Nat) (s : DumpState) (p : SurfaceShape)
    (l hsh : Nat) :
    DumpTexture c pid s p l hsh = s ∨
    (DumpTexture c pid s p l hsh =
       { s with
         queued := s.queued ++ [(dumpPath pid p.width p.height hsh p.pixel_format l, hsh)],
         dumped_textures := s.dumped_textures ++ [hsh] }
     ∧ hsh ∉ s.dumped_textures
     ∧ IsPow2 p.width = true ∧ IsPow2 p.height = true) := by
  unfold DumpTexture
  cases c with
  | false => exact Or.inl rfl
  | true =>
    simp only [Bool.not_true, Bool.false_eq_true, if_false]
    by_cases hm : hsh ∈ s.dumped_textures ∨
        dumpPath pid p.width p.height hsh p.pixel_format l ∈ s.files
    · rw [if_pos hm]
      exact Or.inl rfl
    · rw [if_neg hm]
      by_cases hp : (!(IsPow2 p.width) || !(IsPow2 p.height)) = true
      · rw [if_pos hp]
        exact Or.inl rfl
      · rw [if_neg hp]
        have hpw : IsPow2 p.width = true ∧ IsPow2 p.height = true := by
          cases hw : IsPow2 p.width with
          | false => exact absurd (by rw [hw]; rfl) hp
          | true =>
            cases hh : IsPow2 p.height with
            | false => exact absurd (by rw [hh]; simp) hp
            | true => exact ⟨rfl, rfl⟩
        exact Or.inr ⟨rfl, fun hin => hm (Or.inl hin), hpw⟩

theorem encCount_append_hit (q : List (String × Nat)) (path : String) (hsh : Nat) :
    encCount (q ++ [(path, hsh)]) hsh = encCount q hsh + 1 := by
  simp [encCount, List.countP_append]

/-! ## Claim C8 -/

/-- Claim C8: two DumpTexture calls with the same content hash queue the
PNG encode job at most once - the first successful call inserts the hash
into the session dumped set (custom_tex_manager.cpp:272) and the second
call short-circuits at line 243 - and a call whose width or height is not
a power of two performs no work at all: the state (queued encodes, dumped
set, files) is unchanged, so no file is ever written by it. -/
theorem dump_dedup_and_pow2 (c1 c2 : Bool) (pid : Nat) (s : DumpState)
    (p1 p2 : SurfaceShape) (l1 l2 hsh : Nat) :
    encCount (DumpTexture c2 pid (DumpTexture c1 pid s p1 l1 hsh) p2 l2 hsh).queued hsh ≤
      encCount s.queued hsh + 1
    ∧ (¬ (IsPow2 p1.width = true ∧ IsPow2 p1.height = true) →
        DumpTexture c1 pid s p1 l1 hsh = s) := by
  constructor
  · rcases DumpTexture_cases c1 pid s p1 l1 hsh with h1 | ⟨h1, hnotin, hpow⟩
    · rw [h1]
      rcases DumpTexture_cases c2 pid s p2 l2 hsh with h2 | ⟨h2, _, _⟩
      · rw [h2]
        exact Nat.le_succ_of_le (Nat.le_refl _)
      · rw [h2]
        simp only [encCount_append_hit]
        exact Nat.le_refl _
    · rw [h1]
      rcases DumpTexture_cases c2 pid
          { s with
            queued := s.queued ++
              [(dumpPath pid p1.width p1.height hsh p1.pixel_format l1, hsh)],
            dumped_textures := s.dumped_textures ++ [hsh] } p2 l2 hsh with
        h2 | ⟨_, hnotin2, _⟩
      · rw [h2]
        simp only [encCount_append_hit]
        exact Nat.le_refl _
      · exfalso
        exact hnotin2 (List.mem_append.mpr (Or.inr (List.mem_singleton.mpr rfl)))
  · intro hnp
    rcases DumpTexture_cases c1 pid s p1 l1 hsh with h1 | ⟨h1, hnotin, hpow⟩
    · exact h1
    · exact absurd hpow hnp

/-- Witness for C8: dumping hash 77 first with the non-power-of-two shape
100x64 (rejected, state unchanged) and then with 128x64: at most one
encode job for 77 is queued across the two calls. -/
theorem dump_dedup_and_pow2_witness :
    encCount (DumpTexture true 5
        (DumpTexture true 5 dump0 { width := 100, height := 64, pixel_format := 2 } 0 77)
        { width := 128, height := 64, pixel_format := 2 } 0 77).queued 77 ≤
      encCount dump0.queued 77 + 1
    ∧ DumpTexture true 5 dump0 { width := 100, height := 64, pixel_format := 2 } 0 77 =
        dump0 :=
  ⟨(dump_dedup_and_pow2 true true 5 dump0 { width := 100, height := 64, pixel_format := 2 }
      { width := 128, height := 64, pixel_format := 2 } 0 0 77).1,
   (dump_dedup_and_pow2 true true 5 dump0 { width := 100, height := 64, pixel_format := 2 }
      { width := 128, height := 64, pixel_format := 2 } 0 0 77).2 (by decide)⟩

end CitraVC

